import Mathlib

/-!
Verification development for the SignalGen repository (`app.py`).

The Python source is shallowly embedded as executable Lean definitions:

* machine text is `List Char`; Python `str.split`, `str.strip`, substring
  tests and the `re.search` brace fallback are modelled directly;
* `json.loads` is modelled by `json_loads`, a recursive-descent parser for
  the JSON fragment exercised by the program (objects, arrays, strings with
  the common escapes, integers, booleans, null); floating-point literals and
  `\u` escapes are out of the modelled fragment and make the parser fail,
  which is conservative for every theorem below since `json_loads` only ever
  enters statements through explicit hypotheses or concrete evaluations;
* pandas/numpy float arithmetic is modelled over `ℚ` with `Option ℚ` as the
  explicit NaN/undefined value; where IEEE special values drive the control
  flow (the RSI `gain/0` division) the embedding spells the resulting value
  out and documents it;
* the two network collaborators (Kraken, DeepSeek) enter as parameters:
  a fetched-candles value and an `analyze` function returning `Except`,
  mirroring raised exceptions.
-/

/-- Candle record exactly as built by `fetch_kraken_candles` (app.py lines
46-54): timestamp plus OHLCV decimals.  `open` is a Lean keyword, so that
field is called `openP`. -/
structure Candle where
  timestamp : Int
  openP : ℚ
  high : ℚ
  low : ℚ
  close : ℚ
  volume : ℚ
deriving DecidableEq, Repr, Inhabited

/-- Parsed JSON value, the result type of the modelled `json.loads`.
Objects keep their key/value pairs in textual order. -/
inductive Json where
  | null : Json
  | bool : Bool → Json
  | num : Int → Json
  | str : List Char → Json
  | arr : List Json → Json
  | obj : List (List Char × Json) → Json
deriving Inhabited

/-- Whitespace accepted between JSON tokens by the stdlib parser. -/
def jsonWsChar (c : Char) : Bool :=
  c = ' ' || c = '\t' || c = '\n' || c = '\r'

/-- Drop leading JSON whitespace. -/
def skipWs (cs : List Char) : List Char := cs.dropWhile jsonWsChar

/-- Decimal digit test. -/
def isDigitCh (c : Char) : Bool := '0' ≤ c && c ≤ '9'

/-- Body of a JSON string after the opening quote: collects characters until
the closing quote, decoding the common backslash escapes.  `\u` escapes are
outside the modelled fragment. -/
def jparseStrAux : List Char → List Char → Option (List Char × List Char)
  | [], _ => none
  | '"' :: rest, acc => some (acc.reverse, rest)
  | '\\' :: e :: rest, acc =>
    match e with
    | '"' => jparseStrAux rest ('"' :: acc)
    | '\\' => jparseStrAux rest ('\\' :: acc)
    | '/' => jparseStrAux rest ('/' :: acc)
    | 'n' => jparseStrAux rest ('\n' :: acc)
    | 't' => jparseStrAux rest ('\t' :: acc)
    | 'r' => jparseStrAux rest ('\r' :: acc)
    | 'b' => jparseStrAux rest ('\x08' :: acc)
    | 'f' => jparseStrAux rest ('\x0c' :: acc)
    | _ => none
  | ['\\'], _ => none
  | c :: rest, acc => jparseStrAux rest (c :: acc)

/-- Integer literal (optional minus, digit run); a following `.`, `e` or `E`
would start a float literal, which is outside the modelled fragment. -/
def jparseNum (cs : List Char) : Option (Json × List Char) :=
  let p := match cs with
    | '-' :: rest => (true, rest)
    | _ => (false, cs)
  match p.2 with
  | c :: _ =>
    if isDigitCh c then
      let digits := p.2.takeWhile isDigitCh
      let rest := p.2.dropWhile isDigitCh
      match rest with
      | '.' :: _ => none
      | 'e' :: _ => none
      | 'E' :: _ => none
      | _ =>
        let n : Nat := digits.foldl (fun acc d => acc * 10 + (d.toNat - 48)) 0
        some (Json.num (if p.1 then -(n : Int) else (n : Int)), rest)
    else none
  | [] => none

mutual

/-- Parse one JSON value, fuel-bounded recursive descent. -/
def jparseVal : Nat → List Char → Option (Json × List Char)
  | 0, _ => none
  | fuel + 1, cs =>
    match skipWs cs with
    | [] => none
    | c :: rest =>
      if c = '\x7b' then jparseObjBody fuel rest
      else if c = '[' then jparseArrBody fuel rest
      else if c = '"' then
        match jparseStrAux rest [] with
        | some (s, rest2) => some (Json.str s, rest2)
        | none => none
      else if c = 't' then
        if ['r', 'u', 'e'].isPrefixOf rest then some (Json.bool true, rest.drop 3) else none
      else if c = 'f' then
        if ['a', 'l', 's', 'e'].isPrefixOf rest then some (Json.bool false, rest.drop 4) else none
      else if c = 'n' then
        if ['u', 'l', 'l'].isPrefixOf rest then some (Json.null, rest.drop 3) else none
      else jparseNum (c :: rest)

/-- Object body after the opening brace. -/
def jparseObjBody : Nat → List Char → Option (Json × List Char)
  | 0, _ => none
  | fuel + 1, cs =>
    match skipWs cs with
    | '\x7d' :: rest => some (Json.obj [], rest)
    | other => jparseMembers fuel other []

/-- Comma-separated key/value members of an object. -/
def jparseMembers : Nat → List Char → List (List Char × Json) → Option (Json × List Char)
  | 0, _, _ => none
  | fuel + 1, cs, acc =>
    match skipWs cs with
    | '"' :: rest =>
      match jparseStrAux rest [] with
      | some (key, rest2) =>
        match skipWs rest2 with
        | ':' :: rest3 =>
          match jparseVal fuel rest3 with
          | some (v, rest4) =>
            match skipWs rest4 with
            | ',' :: rest5 => jparseMembers fuel rest5 (acc ++ [(key, v)])
            | '\x7d' :: rest5 => some (Json.obj (acc ++ [(key, v)]), rest5)
            | _ => none
          | none => none
        | _ => none
      | none => none
    | _ => none

/-- Array body after the opening bracket. -/
def jparseArrBody : Nat → List Char → Option (Json × List Char)
  | 0, _ => none
  | fuel + 1, cs =>
    match skipWs cs with
    | ']' :: rest => some (Json.arr [], rest)
    | _ => jparseElems fuel cs []

/-- Comma-separated elements of an array. -/
def jparseElems : Nat → List Char → List Json → Option (Json × List Char)
  | 0, _, _ => none
  | fuel + 1, cs, acc =>
    match jparseVal fuel cs with
    | some (v, rest) =>
      match skipWs rest with
      | ',' :: rest2 => jparseElems fuel rest2 (acc ++ [v])
      | ']' :: rest2 => some (Json.arr (acc ++ [v]), rest2)
      | _ => none
    | none => none

end

/-- Model of Python `json.loads`: parse one value, then require only
whitespace to remain.  The fuel bound is generous; every recursive step
consumes input, so `2*length+2` can never be exhausted on inputs the
grammar accepts. -/
def json_loads (cs : List Char) : Option Json :=
  match jparseVal (2 * cs.length + 2) cs with
  | some (v, rest) => if skipWs rest = [] then some v else none
  | none => none

/-- Whitespace removed by Python `str.strip()`. -/
def pyStripWs (c : Char) : Bool :=
  c = ' ' || c = '\t' || c = '\n' || c = '\r' || c = '\x0b' || c = '\x0c'

/-- Model of Python `str.strip()`. -/
def pyStrip (xs : List Char) : List Char :=
  ((xs.dropWhile pyStripWs).reverse.dropWhile pyStripWs).reverse

/-- Worker for Python `str.split(sep)` with a non-empty separator: scan left
to right, cutting at each non-overlapping occurrence of `sep`.  The fuel
argument only forces structural recursion; every step consumes at least one
character, so the fuel `pySplit` supplies can never run out. -/
def pySplitAux (sep : List Char) : Nat → List Char → List Char → List (List Char)
  | 0, acc, xs => [acc ++ xs]
  | fuel + 1, acc, xs =>
    if sep ≠ [] ∧ sep.isPrefixOf xs then
      acc :: pySplitAux sep fuel [] (xs.drop sep.length)
    else
      match xs with
      | [] => [acc]
      | c :: rest => pySplitAux sep fuel (acc ++ [c]) rest

/-- Model of Python `str.split(sep)` for non-empty `sep`. -/
def pySplit (sep xs : List Char) : List (List Char) :=
  pySplitAux sep (xs.length + 1) [] xs

/-- Model of `re.search` for the DOTALL pattern "open brace, anything,
close brace" used as the fallback in `get_deepseek_analysis` (app.py line
177): the greedy leftmost match runs from the first opening brace to the
last closing brace, provided the latter comes strictly later. -/
def braceMatch (xs : List Char) : Option (List Char) :=
  match List.findIdx? (fun c => c = '\x7b') xs, List.findIdx? (fun c => c = '\x7d') xs.reverse with
  | some i, some jr =>
    let j := xs.length - 1 - jr
    if i < j then some ((xs.drop i).take (j - i + 1)) else none
  | _, _ => none

/-- The code-fence markers tested by `get_deepseek_analysis`. -/
def fenceJson : List Char := "```json".data

/-- Generic code-fence marker. -/
def fence : List Char := "```".data

/-- Extraction pipeline of `get_deepseek_analysis` (app.py lines 162-181):
fence-aware splitting, `json.loads`, and the regex fallback.  `none` models
every failure path (the JSONDecodeError escalation as well as the explicit
"Could not parse JSON" exception); the surrounding HTTP/transport code is
outside this function. -/
def get_deepseek_analysis (content : List Char) : Option Json :=
  let json_str :=
    if fenceJson <:+: content then
      pyStrip ((pySplit fence ((pySplit fenceJson content).getD 1 [])).getD 0 [])
    else if fence <:+: content then
      pyStrip ((pySplit fence ((pySplit fence content).getD 1 [])).getD 0 [])
    else content
  match json_loads json_str with
  | some v => some v
  | none =>
    match braceMatch content with
    | some m => json_loads m
    | none => none

/-- Modelled from the spec (section 4.4): the validation the specification
prescribes for a parsed recommendation — `signal` must be present and one of
the three literal strings.  The source code contains no counterpart; this
definition exists only to state claim C1 against the code. -/
def spec_signal_valid (j : Json) : Bool :=
  match j with
  | Json.obj kvs =>
    match kvs.lookup "signal".data with
    | some (Json.str s) => s = "BUY".data || s = "SELL".data || s = "HOLD".data
    | _ => false
  | _ => false

/-- Pandas `series.rolling(window=w).mean()` on a NaN-free series (app.py
lines 68-71, 122-123): entry `i` is the mean of the `w` trailing values when
at least `w` values are available, and NaN (here `none`) during warm-up. -/
def rolling_mean (window : Nat) (xs : List ℚ) : List (Option ℚ) :=
  (List.range xs.length).map fun i =>
    if window ≤ i + 1 then some (((xs.drop (i + 1 - window)).take window).sum / (window : ℚ))
    else none

/-- Gain series of `calculate_rsi` (app.py line 122):
`delta.where(delta > 0, 0)`.  The first delta is NaN and `NaN > 0` is false,
so pandas replaces it with 0 — hence the leading `0 ::`. -/
def gains (prices : List ℚ) : List ℚ :=
  match prices with
  | [] => []
  | _ :: _ =>
    0 :: List.zipWith (fun prev cur => if 0 < cur - prev then cur - prev else 0)
      prices prices.tail

/-- Loss series of `calculate_rsi` (app.py line 123):
`(-delta.where(delta < 0, 0))`, with the NaN-first-delta again becoming 0. -/
def losses (prices : List ℚ) : List ℚ :=
  match prices with
  | [] => []
  | _ :: _ =>
    0 :: List.zipWith (fun prev cur => if cur - prev < 0 then -(cur - prev) else 0)
      prices prices.tail

/-- Combination step of `calculate_rsi` (app.py lines 124-125):
`rs = gain/loss; rsi = 100 - 100/(1+rs)` under IEEE float semantics.
With `loss = 0` and `gain > 0` the division gives `+inf` and the formula
collapses to exactly 100; with `loss = 0 = gain` it gives NaN (modelled
`none`); otherwise it is ordinary arithmetic. -/
def rsiCombine (g l : Option ℚ) : Option ℚ :=
  match g, l with
  | some g, some l =>
    if l = 0 then (if g = 0 then none else some 100)
    else some (100 - 100 / (1 + g / l))
  | _, _ => none

/-- Model of `KrakenDeepSeekAnalyzer.calculate_rsi` (app.py lines 119-126). -/
def calculate_rsi (prices : List ℚ) (period : Nat) : List (Option ℚ) :=
  List.zipWith rsiCombine (rolling_mean period (gains prices)) (rolling_mean period (losses prices))

/-- Percentage price change reported by `generate_analysis_prompt` (app.py
lines 74-75 and 95): `previous = df.iloc[-2] if len(df) > 1 else latest`,
then `(latest.close - previous.close) / previous.close * 100`.  A zero
`previous.close` makes the float division produce NaN/inf rather than a
number, modelled as `none`; an empty frame would fault on `iloc[-1]`. -/
def prompt_price_change (candles : List Candle) : Option ℚ :=
  match candles.getLast? with
  | none => none
  | some latest =>
    let previous := if 1 < candles.length then candles.getD (candles.length - 2) latest else latest
    if previous.close = 0 then none
    else some ((latest.close - previous.close) / previous.close * 100)

/-- Candle-window planner of `get_signals` (app.py lines 197-213) for the
branch with a supplied date: returns `(candles_to_fetch, since)`.  Python's
`//` is floor division, hence `Int.fdiv`. -/
def plan_window (currentTime targetTimestamp interval : Int) : Int × Int :=
  let fiftyHoursAgo := currentTime - 50 * 3600
  let candlesToFetch :=
    if fiftyHoursAgo < targetTimestamp then
      min 50 (max 1 ((targetTimestamp - fiftyHoursAgo).fdiv 3600))
    else 50
  (candlesToFetch, targetTimestamp - candlesToFetch * interval * 60)

/-- One emitted signal (app.py lines 239-244); the derived `datetime` field
is a pure rendering of `timestamp` and is not modelled separately. -/
structure SignalRecord where
  timestamp : Int
  price : ℚ
  analysis : Json
deriving Inhabited

/-- HTTP outcome of the `/api/signals` endpoint.  The human-readable error
message bodies carry no claim content and are not modelled. -/
inductive Response where
  | ok : Nat → List SignalRecord → Response
  | notFound : Response
  | serverError : Response

/-- Replay loop of `get_signals` (app.py lines 233-244), processing indices
`i, i+1, ...`: indices below 49 are skipped, each remaining index analyzes
the prefix `candles[0..i]` and appends a record; a raised exception (the
`Except.error` branch) aborts the whole loop, discarding every record. -/
def replayFrom (analyze : List Candle → Except String Json) (candles : List Candle)
    (i : Nat) : Except String (List SignalRecord) :=
  if h : i < candles.length then
    if 49 ≤ i then
      match analyze (candles.take (i + 1)) with
      | Except.error e => Except.error e
      | Except.ok a =>
        match replayFrom analyze candles (i + 1) with
        | Except.error e => Except.error e
        | Except.ok rest =>
          Except.ok ({ timestamp := (candles.get ⟨i, h⟩).timestamp,
                       price := (candles.get ⟨i, h⟩).close, analysis := a } :: rest)
    else replayFrom analyze candles (i + 1)
  else Except.ok []
termination_by candles.length - i

/-- Endpoint body of `get_signals` (app.py lines 186-265) after date
parsing and window planning: the fetched candles arrive as an `Except`
(a raised fetch exception lands in the outer handler, line 264), the
DeepSeek round trip per prompt is the `analyze` parameter, and `dateGiven`
records whether a `date` query parameter was supplied. -/
def get_signals (dateGiven : Bool) (fetched : Except String (List Candle))
    (analyze : List Candle → Except String Json) : Response :=
  match fetched with
  | Except.error _ => Response.serverError
  | Except.ok candles =>
    if candles.isEmpty then Response.notFound
    else if dateGiven = true ∧ 1 < candles.length then
      match replayFrom analyze candles 0 with
      | Except.error _ => Response.serverError
      | Except.ok sigs => Response.ok candles.length sigs
    else
      match analyze candles with
      | Except.error _ => Response.serverError
      | Except.ok a =>
        Response.ok candles.length
          [{ timestamp := (candles.getLastD default).timestamp,
             price := (candles.getLastD default).close, analysis := a }]

lemma replayFrom_past (analyze : List Candle → Except String Json) (candles : List Candle)
    (i : Nat) (h : candles.length ≤ i) : replayFrom analyze candles i = Except.ok [] := by
  rw [replayFrom, dif_neg (Nat.not_lt.mpr h)]

lemma replayFrom_climb (analyze : List Candle → Except String Json) (candles : List Candle) :
    ∀ k i, i + k = 49 → replayFrom analyze candles i = replayFrom analyze candles 49 := by
  intro k
  induction k with
  | zero => intro i h; rw [show i = 49 by omega]
  | succ n ih =>
    intro i h
    by_cases hlt : i < candles.length
    · rw [replayFrom, dif_pos hlt, if_neg (by omega)]
      exact ih (i + 1) (by omega)
    · rw [replayFrom_past _ _ _ (by omega), replayFrom_past _ _ _ (by omega)]

lemma replayFrom_const (analyze : List Candle → Except String Json) (candles : List Candle)
    (a0 : Json) (hA : ∀ pre, analyze pre = Except.ok a0) :
    ∀ n i, candles.length - i = n → 49 ≤ i →
      replayFrom analyze candles i = Except.ok ((candles.drop i).map fun c =>
        { timestamp := c.timestamp, price := c.close, analysis := a0 }) := by
  intro n
  induction n with
  | zero =>
    intro i hni _
    rw [replayFrom_past _ _ _ (by omega), List.drop_eq_nil_of_le (by omega), List.map_nil]
  | succ n ih =>
    intro i hni hi
    have hlt : i < candles.length := by omega
    rw [replayFrom, dif_pos hlt, if_pos hi, hA, ih (i + 1) (by omega) (by omega)]
    rw [List.drop_eq_getElem_cons hlt, List.map_cons]
    rfl

lemma replayFrom_mem (analyze : List Candle → Except String Json) (candles : List Candle) :
    ∀ n i sigs, candles.length - i = n →
      replayFrom analyze candles i = Except.ok sigs →
      ∀ s ∈ sigs, ∃ j, ∃ hj : j < candles.length, i ≤ j ∧ 49 ≤ j ∧
        analyze (candles.take (j + 1)) = Except.ok s.analysis ∧
        s.timestamp = (candles.get ⟨j, hj⟩).timestamp ∧
        s.price = (candles.get ⟨j, hj⟩).close := by
  intro n
  induction n with
  | zero =>
    intro i sigs hni hok s hs
    rw [replayFrom_past _ _ _ (by omega)] at hok
    obtain rfl : ([] : List SignalRecord) = sigs := by injection hok
    cases hs
  | succ n ih =>
    intro i sigs hni hok s hs
    have hlt : i < candles.length := by omega
    rw [replayFrom, dif_pos hlt] at hok
    by_cases hi : 49 ≤ i
    · rw [if_pos hi] at hok
      cases ha : analyze (candles.take (i + 1)) with
      | error e => rw [ha] at hok; cases hok
      | ok a =>
        rw [ha] at hok
        cases hrest : replayFrom analyze candles (i + 1) with
        | error e => rw [hrest] at hok; cases hok
        | ok rest =>
          rw [hrest] at hok
          obtain rfl : _ = sigs := by injection hok
          rcases List.mem_cons.mp hs with rfl | hs2
          · exact ⟨i, hlt, le_refl i, hi, ha, rfl, rfl⟩
          · obtain ⟨j, hj, hij, h49, hja, hts, hpr⟩ :=
              ih (i + 1) rest (by omega) hrest s hs2
            exact ⟨j, hj, by omega, h49, hja, hts, hpr⟩
    · rw [if_neg hi] at hok
      obtain ⟨j, hj, hij, h49, hja, hts, hpr⟩ := ih (i + 1) sigs (by omega) hok s hs
      exact ⟨j, hj, by omega, h49, hja, hts, hpr⟩

lemma replayFrom_error (analyze : List Candle → Except String Json) (candles : List Candle)
    (i : Nat) (e : String) (hi49 : 49 ≤ i) (hilen : i < candles.length)
    (he : analyze (candles.take (i + 1)) = Except.error e) :
    ∀ n j, i - j = n → j ≤ i → ∃ e2, replayFrom analyze candles j = Except.error e2 := by
  intro n
  induction n with
  | zero =>
    intro j hn hj
    obtain rfl : j = i := by omega
    refine ⟨e, ?_⟩
    rw [replayFrom, dif_pos hilen, if_pos hi49, he]
  | succ n ih =>
    intro j hn hj
    have hjlt : j < candles.length := by omega
    have hji : j < i := by omega
    by_cases h49 : 49 ≤ j
    · cases ha : analyze (candles.take (j + 1)) with
      | error e3 =>
        refine ⟨e3, ?_⟩
        rw [replayFrom, dif_pos hjlt, if_pos h49, ha]
      | ok a =>
        obtain ⟨e2, h2⟩ := ih (j + 1) (by omega) (by omega)
        refine ⟨e2, ?_⟩
        rw [replayFrom, dif_pos hjlt, if_pos h49, ha, h2]
    · obtain ⟨e2, h2⟩ := ih (j + 1) (by omega) (by omega)
      refine ⟨e2, ?_⟩
      rw [replayFrom, dif_pos hjlt, if_neg h49]
      exact h2

lemma get_signals_ok_eq (dateGiven : Bool) (candles : List Candle)
    (analyze : List Candle → Except String Json) :
    get_signals dateGiven (Except.ok candles) analyze =
      (if candles.isEmpty = true then Response.notFound
       else if dateGiven = true ∧ 1 < candles.length then
         match replayFrom analyze candles 0 with
         | Except.error _ => Response.serverError
         | Except.ok sigs => Response.ok candles.length sigs
       else
         match analyze candles with
         | Except.error _ => Response.serverError
         | Except.ok a =>
           Response.ok candles.length
             [{ timestamp := (candles.getLastD default).timestamp,
                price := (candles.getLastD default).close, analysis := a }]) := rfl

lemma isEmpty_false_of_lt {l : List Candle} (h : 0 < l.length) : ¬ (l.isEmpty = true) := by
  cases l with
  | nil => simp at h
  | cons c cs => simp [List.isEmpty]

/-- Claim C9: with a target date given and between 2 and 49 fetched candles,
`get_signals` replies with a success response whose signal list is empty and
whose total-candles count is the number of fetched candles. -/
theorem short_replay_empty_ok (candles : List Candle)
    (analyze : List Candle → Except String Json)
    (h2 : 2 ≤ candles.length) (h49 : candles.length ≤ 49) :
    get_signals true (Except.ok candles) analyze = Response.ok candles.length [] := by
  rw [get_signals_ok_eq, if_neg (isEmpty_false_of_lt (by omega)), if_pos ⟨rfl, by omega⟩,
    replayFrom_climb analyze candles 49 0 (by omega), replayFrom_past _ _ _ (by omega)]

/-- Witness for C9 at a concrete 3-candle fetch. -/
theorem short_replay_empty_ok_witness :
    get_signals true
      (Except.ok [{ timestamp := 1, openP := 1, high := 1, low := 1, close := 1, volume := 1 },
                  { timestamp := 2, openP := 1, high := 1, low := 1, close := 2, volume := 1 },
                  { timestamp := 3, openP := 1, high := 1, low := 1, close := 3, volume := 1 }])
      (fun _ => Except.error "stub") =
    Response.ok 3 [] :=
  short_replay_empty_ok _ _ (by simp) (by simp)

/-- Claim C2: in replay mode (date given, more than one candle) with an
always-succeeding fixed-body collaborator, `get_signals` emits exactly
`len - 49` records (so zero whenever fewer than 50 candles arrived), whose
timestamps are those of `candles[49..]` in order; for strictly increasing
input timestamps the emitted timestamps are strictly increasing. -/
theorem replay_record_count (candles : List Candle)
    (analyze : List Candle → Except String Json) (a0 : Json)
    (hA : ∀ pre, analyze pre = Except.ok a0) (hlen : 1 < candles.length) :
    ∃ sigs, get_signals true (Except.ok candles) analyze = Response.ok candles.length sigs ∧
      sigs.length = candles.length - 49 ∧
      sigs.map SignalRecord.timestamp = (candles.drop 49).map Candle.timestamp ∧
      (List.Chain' (· < ·) (candles.map Candle.timestamp) →
        List.Chain' (· < ·) (sigs.map SignalRecord.timestamp)) := by
  refine ⟨(candles.drop 49).map fun c =>
    { timestamp := c.timestamp, price := c.close, analysis := a0 }, ?_, ?_, ?_, ?_⟩
  · rw [get_signals_ok_eq, if_neg (isEmpty_false_of_lt (by omega)), if_pos ⟨rfl, by omega⟩,
      replayFrom_climb analyze candles 49 0 (by omega),
      replayFrom_const analyze candles a0 hA (candles.length - 49) 49 rfl (le_refl 49)]
  · simp
  · rw [List.map_map]; rfl
  · intro hch
    have hmap : (List.map (fun c =>
        ({ timestamp := c.timestamp, price := c.close, analysis := a0 } : SignalRecord))
        (candles.drop 49)).map SignalRecord.timestamp =
        (candles.map Candle.timestamp).drop 49 := by
      rw [List.map_map, ← List.map_drop]
      rfl
    rw [hmap]
    exact hch.suffix (List.drop_suffix _ _)

/-- Fixture candles for the replay witnesses: `n` candles with consecutive
integer timestamps. -/
def wCandles (n : Nat) : List Candle :=
  (List.range n).map fun k : Nat =>
    { timestamp := (k : Int), openP := 1, high := 1, low := 1, close := 1, volume := 1 }

/-- Witness for C2: the 60-candle fixture with a fixed valid body yields
`Response.ok 60 sigs` with `sigs.length = 60 - 49 = 11` and the timestamps
of candles 49..59, strictly increasing. -/
theorem replay_record_count_witness :
    ∃ sigs, get_signals true (Except.ok (wCandles 60)) (fun _ => Except.ok Json.null) =
      Response.ok (wCandles 60).length sigs ∧
      sigs.length = 11 ∧
      sigs.map SignalRecord.timestamp = ((wCandles 60).drop 49).map Candle.timestamp ∧
      List.Chain' (· < ·) (sigs.map SignalRecord.timestamp) := by
  obtain ⟨sigs, h1, h2, h3, h4⟩ := replay_record_count (wCandles 60)
    (fun _ => Except.ok Json.null) Json.null (fun _ => rfl) (by simp [wCandles])
  refine ⟨sigs, h1, ?_, h3, h4 ?_⟩
  · rw [h2]; simp [wCandles]
  · have hts : (wCandles 60).map Candle.timestamp =
        (List.range 60).map fun k : Nat => (k : Int) := by
      rw [wCandles, List.map_map]; rfl
    rw [hts, List.chain'_iff_pairwise, List.pairwise_map]
    exact (List.pairwise_lt_range 60).imp fun h => by exact_mod_cast h

/-- Claim C8: a collaborator failure on any replay step (index at least 49)
makes the whole request fail with a server error; no partial record list is
ever returned, because the error response carries no records. -/
theorem step_failure_aborts (candles : List Candle)
    (analyze : List Candle → Except String Json) (i : Nat) (e : String)
    (hlen : 1 < candles.length) (hi : 49 ≤ i) (hil : i < candles.length)
    (he : analyze (candles.take (i + 1)) = Except.error e) :
    get_signals true (Except.ok candles) analyze = Response.serverError := by
  obtain ⟨e2, h2⟩ := replayFrom_error analyze candles i e hi hil he i 0 (by omega) (by omega)
  rw [get_signals_ok_eq, if_neg (isEmpty_false_of_lt (by omega)), if_pos ⟨rfl, by omega⟩, h2]

/-- Witness for C8: 50 candles and a collaborator that always raises give a
server error. -/
theorem step_failure_aborts_witness :
    get_signals true (Except.ok (wCandles 50)) (fun _ => Except.error "boom") =
      Response.serverError :=
  step_failure_aborts _ _ 49 "boom" (by simp [wCandles]) (by omega) (by simp [wCandles]) rfl

/-- Claim C3: every record an ok replay response contains was analyzed from
the prefix `candles[0..j]` for its own index `j` (at least 49), and with
ascending input timestamps every candle that entered the analysis has a
timestamp at most the record's own — no look-ahead. -/
theorem replay_no_lookahead (candles : List Candle)
    (analyze : List Candle → Except String Json) (n : Nat) (sigs : List SignalRecord)
    (hsort : List.Pairwise (fun a b => a.timestamp ≤ b.timestamp) candles)
    (hok : get_signals true (Except.ok candles) analyze = Response.ok n sigs)
    (hlen : 1 < candles.length) :
    ∀ s ∈ sigs, ∃ j, ∃ hj : j < candles.length, 49 ≤ j ∧
      analyze (candles.take (j + 1)) = Except.ok s.analysis ∧
      s.timestamp = (candles.get ⟨j, hj⟩).timestamp ∧
      ∀ c ∈ candles.take (j + 1), c.timestamp ≤ s.timestamp := by
  rw [get_signals_ok_eq, if_neg (isEmpty_false_of_lt (by omega)), if_pos ⟨rfl, by omega⟩] at hok
  cases hrep : replayFrom analyze candles 0 with
  | error e => rw [hrep] at hok; cases hok
  | ok sigs2 =>
    rw [hrep] at hok
    have hok2 : Response.ok candles.length sigs2 = Response.ok n sigs := hok
    injection hok2 with hn hsigs
    subst hsigs
    intro s hs
    obtain ⟨j, hj, _, h49, hja, hts, _⟩ :=
      replayFrom_mem analyze candles (candles.length - 0) 0 sigs2 rfl hrep s hs
    refine ⟨j, hj, h49, hja, hts, ?_⟩
    intro c hc
    obtain ⟨k, hk, hck⟩ := List.getElem_of_mem hc
    have hkj : k ≤ j := by
      have hk2 := hk
      simp only [List.length_take] at hk2
      omega
    have hkl : k < candles.length := by omega
    rw [List.getElem_take] at hck
    rw [hts]
    rcases Nat.lt_or_ge k j with hlt | hge
    · have hpw := List.pairwise_iff_getElem.mp hsort k j hkl hj hlt
      rw [← hck]
      exact hpw
    · obtain rfl : k = j := by omega
      rw [← hck]
      exact le_refl _

/-- Witness for C3 on a concrete 50-candle fixture with a constant
collaborator: the first candle that entered the analysis of the single
emitted record indeed has a timestamp bounded by the record's own. -/
theorem replay_no_lookahead_witness :
    ({ timestamp := 0, openP := 1, high := 1, low := 1, close := 1,
       volume := 1 } : Candle).timestamp ≤
      ({ timestamp := 49, price := 1, analysis := Json.null } : SignalRecord).timestamp := by
  have hok : get_signals true (Except.ok (wCandles 50)) (fun _ => Except.ok Json.null) =
      Response.ok (wCandles 50).length [{ timestamp := 49, price := 1, analysis := Json.null }] := by
    rw [get_signals_ok_eq, if_neg (isEmpty_false_of_lt (by simp [wCandles])),
      if_pos ⟨rfl, by simp [wCandles]⟩,
      replayFrom_climb _ _ 49 0 (by omega),
      replayFrom_const _ _ Json.null (fun _ => rfl) ((wCandles 50).length - 49) 49 rfl
        (le_refl 49)]
    have : (wCandles 50).drop 49 =
        [{ timestamp := 49, openP := 1, high := 1, low := 1, close := 1, volume := 1 }] := by
      decide
    rw [this]
    rfl
  have hsort : List.Pairwise (fun a b : Candle => a.timestamp ≤ b.timestamp) (wCandles 50) := by
    rw [wCandles, List.pairwise_map]
    exact (List.pairwise_lt_range 50).imp fun h => by
      simp only []
      exact_mod_cast Nat.le_of_lt h
  obtain ⟨j, hj, h49, -, -, hle⟩ := replay_no_lookahead (wCandles 50) _ (wCandles 50).length _
    hsort hok (by simp [wCandles])
    ({ timestamp := 49, price := 1, analysis := Json.null }) (by simp)
  obtain rfl : j = 49 := by
    have hlen : (wCandles 50).length = 50 := by simp [wCandles]
    omega
  exact hle _ (by decide)

/-- Claim C5: for a target date after the 50-hour cutoff the planner takes
`hours_remaining = floor((target - cutoff)/3600)` and clamps it into
`[1, 50]` (behaving as the identity inside that range and saturating at the
ends), for a target at or before the cutoff it requests 50 candles, and in
every case `since = target - count * interval * 60`. -/
theorem plan_window_spec (now target iv : Int) :
    (now - 180000 < target →
      (1 ≤ (plan_window now target iv).1 ∧ (plan_window now target iv).1 ≤ 50) ∧
      ((target - (now - 180000)).fdiv 3600 ≤ 1 → (plan_window now target iv).1 = 1) ∧
      (50 ≤ (target - (now - 180000)).fdiv 3600 → (plan_window now target iv).1 = 50) ∧
      (1 ≤ (target - (now - 180000)).fdiv 3600 → (target - (now - 180000)).fdiv 3600 ≤ 50 →
        (plan_window now target iv).1 = (target - (now - 180000)).fdiv 3600)) ∧
    (target ≤ now - 180000 → (plan_window now target iv).1 = 50) ∧
    (plan_window now target iv).2 = target - (plan_window now target iv).1 * iv * 60 := by
  dsimp only [plan_window]
  have h50 : (50 : Int) * 3600 = 180000 := by norm_num
  rw [h50]
  split_ifs with hif
  · refine ⟨fun _ => ⟨⟨?_, ?_⟩, fun hle => ?_, fun hge => ?_, fun h1 h2 => ?_⟩,
      fun hc => by omega, rfl⟩ <;> omega
  · exact ⟨fun hc => absurd hc hif, fun _ => rfl, rfl⟩

/-- Witness for C5 at the spec's concrete instance: `now = 1000000`,
`target = now - 10h`, one-hour candles; `hours_remaining = 40`, so the
planner requests 40 candles and `since = target - 40*3600`. -/
theorem plan_window_spec_witness :
    (plan_window 1000000 964000 60).1 = 40 ∧
    (plan_window 1000000 964000 60).2 = 964000 - 40 * 60 * 60 := by
  have h := plan_window_spec 1000000 964000 60
  have h40 : ((964000 : Int) - (1000000 - 180000)).fdiv 3600 = 40 := by decide
  have hcount : (plan_window 1000000 964000 60).1 = 40 := by
    have := (h.1 (by decide)).2.2.2 (by rw [h40]; decide) (by rw [h40]; decide)
    rw [h40] at this
    exact this
  refine ⟨hcount, ?_⟩
  rw [h.2.2, hcount]

lemma slice_sum : ∀ (w a : Nat) (xs : List ℚ), a + w ≤ xs.length →
    ((xs.drop a).take w).sum = ∑ k ∈ Finset.range w, xs.getD (a + k) 0 := by
  intro w
  induction w with
  | zero => intro a xs _; simp
  | succ w ih =>
    intro a xs hle
    have ha : a < xs.length := by omega
    rw [List.drop_eq_getElem_cons ha, List.take_succ_cons, List.sum_cons,
      ih (a + 1) xs (by omega), Finset.sum_range_succ']
    have hz : xs.getD (a + 0) 0 = xs[a] := by
      rw [Nat.add_zero, List.getD_eq_getElem _ _ ha]
    rw [hz, add_comm]
    congr 1
    refine Finset.sum_congr rfl fun k _ => ?_
    rw [show a + 1 + k = a + (k + 1) by omega]

lemma rolling_mean_getD_eq (w : Nat) (xs : List ℚ) (i : Nat)
    (hi : i < (rolling_mean w xs).length) :
    (rolling_mean w xs).getD i none =
      (if w ≤ i + 1 then some (((xs.drop (i + 1 - w)).take w).sum / (w : ℚ)) else none) := by
  rw [List.getD_eq_getElem _ _ hi]
  simp only [rolling_mean]
  rw [List.getElem_map, List.getElem_range]

/-- Claim C7: the rolling mean over a window `w` has the input's length, at
index `i ≥ w-1` equals the arithmetic mean of entries `i-w+1 .. i`, and is
an explicit `none` (never a number) at warm-up indices `i < w-1`.  The
embedding is a pure function, so the input is never mutated. -/
theorem sma_window_mean (xs : List ℚ) (w i : Nat) (hw : 1 ≤ w) :
    (rolling_mean w xs).length = xs.length ∧
    (∀ hi : i < xs.length, w - 1 ≤ i →
      (rolling_mean w xs).getD i none =
        some ((∑ k ∈ Finset.range w, xs.getD (i + 1 - w + k) 0) / (w : ℚ))) ∧
    (i < w - 1 → (rolling_mean w xs).getD i none = none) := by
  have hlen : (rolling_mean w xs).length = xs.length := by
    simp [rolling_mean]
  refine ⟨hlen, ?_, ?_⟩
  · intro hi hwi
    have hi2 : i < (rolling_mean w xs).length := by omega
    rw [rolling_mean_getD_eq w xs i hi2]
    rw [if_pos (by omega)]
    rw [slice_sum w (i + 1 - w) xs (by omega)]
  · intro hiw
    by_cases hi : i < xs.length
    · have hi2 : i < (rolling_mean w xs).length := by omega
      rw [rolling_mean_getD_eq w xs i hi2]
      rw [if_neg (by omega)]
    · rw [List.getD_eq_default]
      omega

/-- Witness for C7 on `[1,2,3,4]` with window 2: index 1 is the mean of the
first two entries and index 0 is the undefined sentinel. -/
theorem sma_window_mean_witness :
    (rolling_mean 2 [(1 : ℚ), 2, 3, 4]).getD 1 none =
      some ((∑ k ∈ Finset.range 2, ([(1 : ℚ), 2, 3, 4]).getD (1 + 1 - 2 + k) 0) / (2 : ℚ)) ∧
    (rolling_mean 2 [(1 : ℚ), 2, 3, 4]).getD 0 none = none :=
  ⟨(sma_window_mean [(1 : ℚ), 2, 3, 4] 2 1 (by norm_num)).2.1 (by norm_num) (by norm_num),
   (sma_window_mean [(1 : ℚ), 2, 3, 4] 2 0 (by norm_num)).2.2 (by norm_num)⟩

lemma zipWith_if_nonneg (f : ℚ → ℚ → ℚ) (hf : ∀ a b, 0 ≤ f a b) :
    ∀ (l l' : List ℚ) x, x ∈ List.zipWith f l l' → 0 ≤ x := by
  intro l
  induction l with
  | nil => intro l' x hx; simp at hx
  | cons a t ih =>
    intro l' x hx
    cases l' with
    | nil => simp at hx
    | cons b t' =>
      rw [List.zipWith_cons_cons] at hx
      rcases List.mem_cons.mp hx with rfl | hx2
      · exact hf a b
      · exact ih t' x hx2

lemma gains_nonneg (ps : List ℚ) : ∀ x ∈ gains ps, 0 ≤ x := by
  intro x hx
  cases ps with
  | nil => simp [gains] at hx
  | cons a t =>
    rw [gains] at hx
    rcases List.mem_cons.mp hx with rfl | hx2
    · exact le_refl 0
    · refine zipWith_if_nonneg _ (fun a b => ?_) _ _ x hx2
      by_cases h : 0 < b - a
      · rw [if_pos h]; linarith
      · rw [if_neg h]

lemma losses_nonneg (ps : List ℚ) : ∀ x ∈ losses ps, 0 ≤ x := by
  intro x hx
  cases ps with
  | nil => simp [losses] at hx
  | cons a t =>
    rw [losses] at hx
    rcases List.mem_cons.mp hx with rfl | hx2
    · exact le_refl 0
    · refine zipWith_if_nonneg _ (fun a b => ?_) _ _ x hx2
      by_cases h : b - a < 0
      · rw [if_pos h]; linarith
      · rw [if_neg h]

lemma rolling_mean_nonneg (w : Nat) (xs : List ℚ) (hxs : ∀ x ∈ xs, 0 ≤ x)
    (i : Nat) (q : ℚ) (hq : (rolling_mean w xs).getD i none = some q) : 0 ≤ q := by
  by_cases hi : i < (rolling_mean w xs).length
  · rw [rolling_mean_getD_eq w xs i hi] at hq
    by_cases hw : w ≤ i + 1
    · rw [if_pos hw] at hq
      have hsum : 0 ≤ ((xs.drop (i + 1 - w)).take w).sum := by
        refine List.sum_nonneg fun x hx => hxs x ?_
        exact ((List.take_sublist _ _).trans (List.drop_sublist _ _)).subset hx
      have : 0 ≤ ((xs.drop (i + 1 - w)).take w).sum / (w : ℚ) := by positivity
      injection hq with hq2
      rw [← hq2]
      exact this
    · rw [if_neg hw] at hq; cases hq
  · rw [List.getD_eq_default _ _ (by omega)] at hq; cases hq

lemma getD_none_some_lt {l : List (Option ℚ)} {i : Nat} {q : ℚ}
    (h : l.getD i none = some q) : i < l.length := by
  by_contra hc
  rw [List.getD_eq_default _ _ (by omega)] at h
  cases h

lemma calculate_rsi_getD (ps : List ℚ) (p i : Nat) (hi : i < (calculate_rsi ps p).length) :
    (calculate_rsi ps p).getD i none =
      rsiCombine ((rolling_mean p (gains ps)).getD i none)
        ((rolling_mean p (losses ps)).getD i none) := by
  have hmin := hi
  simp only [calculate_rsi, List.length_zipWith] at hmin
  have hg : i < (rolling_mean p (gains ps)).length := by omega
  have hl : i < (rolling_mean p (losses ps)).length := by omega
  rw [List.getD_eq_getElem _ _ hi, List.getD_eq_getElem _ _ hg, List.getD_eq_getElem _ _ hl]
  simp only [calculate_rsi]
  rw [List.getElem_zipWith]

/-- Claim C4 (amended): every defined RSI value lies in `[0, 100]`; it is
exactly 100 when the trailing mean loss is zero and the trailing mean gain
is nonzero (reached through the IEEE `gain/0 = +inf` path, not an explicit
boundary in the code); with both trailing means zero (a flat window) the
value is NaN/undefined even though enough samples exist; it is exactly 0
when the trailing mean gain is zero and the mean loss nonzero; and it is
undefined at every index with fewer than `period` samples. -/
theorem rsi_range_and_boundaries (ps : List ℚ) (p i : Nat) :
    (∀ r, (calculate_rsi ps p).getD i none = some r → 0 ≤ r ∧ r ≤ 100) ∧
    (∀ g l, (rolling_mean p (gains ps)).getD i none = some g →
        (rolling_mean p (losses ps)).getD i none = some l →
      (l = 0 → g ≠ 0 → (calculate_rsi ps p).getD i none = some 100) ∧
      (l = 0 → g = 0 → (calculate_rsi ps p).getD i none = none) ∧
      (g = 0 → l ≠ 0 → (calculate_rsi ps p).getD i none = some 0)) ∧
    (i + 1 < p → (calculate_rsi ps p).getD i none = none) := by
  refine ⟨?_, ?_, ?_⟩
  · intro r hr
    have hi := getD_none_some_lt hr
    rw [calculate_rsi_getD ps p i hi] at hr
    cases hgd : (rolling_mean p (gains ps)).getD i none with
    | none => rw [hgd] at hr; cases hr
    | some g =>
      cases hld : (rolling_mean p (losses ps)).getD i none with
      | none => rw [hgd, hld] at hr; cases hr
      | some l =>
        rw [hgd, hld] at hr
        have hg0 : 0 ≤ g := rolling_mean_nonneg p (gains ps) (gains_nonneg ps) i g hgd
        have hl0 : 0 ≤ l := rolling_mean_nonneg p (losses ps) (losses_nonneg ps) i l hld
        by_cases hl : l = 0
        · by_cases hg : g = 0
          · rw [rsiCombine, if_pos hl, if_pos hg] at hr; cases hr
          · rw [rsiCombine, if_pos hl, if_neg hg] at hr
            injection hr with hr2
            rw [← hr2]
            norm_num
        · rw [rsiCombine, if_neg hl] at hr
          injection hr with hr2
          have hlpos : 0 < l := lt_of_le_of_ne hl0 (Ne.symm hl)
          have hrs : 0 ≤ g / l := div_nonneg hg0 (le_of_lt hlpos)
          have hd0 : 0 ≤ 100 / (1 + g / l) := by positivity
          have hd1 : 100 / (1 + g / l) ≤ 100 := div_le_self (by norm_num) (by linarith)
          constructor <;> rw [← hr2] <;> linarith
  · intro g l hgd hld
    have hgl := getD_none_some_lt hgd
    have hll := getD_none_some_lt hld
    have hi : i < (calculate_rsi ps p).length := by
      simp only [calculate_rsi, List.length_zipWith]
      omega
    refine ⟨fun h1 h2 => ?_, fun h1 h2 => ?_, fun h1 h2 => ?_⟩ <;>
      rw [calculate_rsi_getD ps p i hi, hgd, hld]
    · rw [rsiCombine, if_pos h1, if_neg h2]
    · rw [rsiCombine, if_pos h1, if_pos h2]
    · rw [rsiCombine, if_neg h2, h1]
      norm_num
  · intro hip
    by_cases hi : i < (calculate_rsi ps p).length
    · have hmin := hi
      simp only [calculate_rsi, List.length_zipWith] at hmin
      have hg : i < (rolling_mean p (gains ps)).length := by omega
      rw [calculate_rsi_getD ps p i hi, rolling_mean_getD_eq p (gains ps) i hg,
        if_neg (by omega)]
      rfl
    · rw [List.getD_eq_default _ _ (by omega)]

lemma gains_replicate (n : Nat) (c : ℚ) :
    gains (List.replicate (n + 1) c) = List.replicate (n + 1) 0 := by
  rw [List.replicate_succ]
  simp only [gains, List.tail_cons]
  rw [show c :: List.replicate n c = List.replicate (n + 1) c from (List.replicate_succ c n).symm,
    List.zipWith_replicate]
  simp [List.replicate_succ]

lemma losses_replicate (n : Nat) (c : ℚ) :
    losses (List.replicate (n + 1) c) = List.replicate (n + 1) 0 := by
  rw [List.replicate_succ]
  simp only [losses, List.tail_cons]
  rw [show c :: List.replicate n c = List.replicate (n + 1) c from (List.replicate_succ c n).symm,
    List.zipWith_replicate]
  simp [List.replicate_succ]

/-- Counterexample to claim C4 as stated: for fourteen equal prices, at
index 13 (so `period = 14` samples are available) the trailing mean loss is
zero and no gains occur, yet the RSI is undefined (the IEEE `0/0` NaN)
rather than the claimed exact 100 or exact 0. -/
theorem rsi_flat_counterexample :
    (rolling_mean 14 (gains (List.replicate 14 (5 : ℚ)))).getD 13 none = some 0 ∧
    (rolling_mean 14 (losses (List.replicate 14 (5 : ℚ)))).getD 13 none = some 0 ∧
    13 < (calculate_rsi (List.replicate 14 (5 : ℚ)) 14).length ∧
    (calculate_rsi (List.replicate 14 (5 : ℚ)) 14).getD 13 none = none := by
  have hg : gains (List.replicate 14 (5 : ℚ)) = List.replicate 14 0 := gains_replicate 13 5
  have hl : losses (List.replicate 14 (5 : ℚ)) = List.replicate 14 0 := losses_replicate 13 5
  have hmean : (rolling_mean 14 (List.replicate 14 (0 : ℚ))).getD 13 none = some 0 := by
    rw [rolling_mean_getD_eq 14 _ 13 (by simp [rolling_mean])]
    rw [if_pos (by norm_num), List.drop_replicate, List.take_replicate]
    norm_num
  have h13 : 13 < (calculate_rsi (List.replicate 14 (5 : ℚ)) 14).length := by
    simp only [calculate_rsi, List.length_zipWith, hg, hl]
    simp [rolling_mean]
  refine ⟨by rw [hg]; exact hmean, by rw [hl]; exact hmean, h13, ?_⟩
  rw [calculate_rsi_getD _ _ _ h13, hg, hl, hmean]
  simp [rsiCombine]

/-- Witness for C4 (amended): the series `[1, 2]` with period 1 has mean
loss 0 and mean gain 1 at index 1, so the RSI is exactly 100, which the
range part confirms lies in `[0, 100]`. -/
theorem rsi_range_and_boundaries_witness :
    (calculate_rsi [(1 : ℚ), 2] 1).getD 1 none = some 100 ∧
    ((0 : ℚ) ≤ 100 ∧ (100 : ℚ) ≤ 100) := by
  have hgl : gains [(1 : ℚ), 2] = [0, 1] := by
    norm_num [gains]
  have hll : losses [(1 : ℚ), 2] = [0, 0] := by
    norm_num [losses]
  have hg : (rolling_mean 1 (gains [(1 : ℚ), 2])).getD 1 none = some 1 := by
    rw [hgl, rolling_mean_getD_eq 1 [0, 1] 1 (by simp [rolling_mean])]
    norm_num
  have hl : (rolling_mean 1 (losses [(1 : ℚ), 2])).getD 1 none = some 0 := by
    rw [hll, rolling_mean_getD_eq 1 [0, 0] 1 (by simp [rolling_mean])]
    norm_num
  have h100 := ((rsi_range_and_boundaries [(1 : ℚ), 2] 1 1).2.1 1 0 hg hl).1 rfl (by norm_num)
  exact ⟨h100, (rsi_range_and_boundaries [(1 : ℚ), 2] 1 1).1 100 h100⟩

/-- Claim C10 (amended): the prompt builder is total on a single-candle
sequence — it uses the latest candle as its own predecessor instead of
indexing out of bounds — and whenever that candle's close is nonzero the
reported percentage change is exactly 0.  (With a zero close the float
division yields NaN, not a number, so no numeric value is reported.) -/
theorem single_candle_price_change (c : Candle) (hc : c.close ≠ 0) :
    prompt_price_change [c] = some 0 := by
  simp [prompt_price_change, hc]

/-- Counterexample to claim C10 as stated: a single candle whose close is 0
makes the reported change `(0-0)/0`, the IEEE NaN, so the percentage change
is not the claimed exact 0. -/
theorem zero_close_price_change_counterexample :
    prompt_price_change
      [{ timestamp := 0, openP := 0, high := 0, low := 0, close := 0, volume := 0 }] ≠
    some 0 := by
  simp [prompt_price_change]

/-- Witness for C10 (amended) at a concrete nonzero-close candle. -/
theorem single_candle_price_change_witness :
    prompt_price_change
      [{ timestamp := 7, openP := 1, high := 2, low := 1, close := 2, volume := 3 }] =
    some 0 :=
  single_candle_price_change _ (by norm_num)

lemma fence_eq : fence = ['\x60', '\x60', '\x60'] := by decide

lemma fenceJson_eq : fenceJson = fence ++ ['j', 's', 'o', 'n'] := by decide

lemma fence_infix_of_fenceJson {xs : List Char} (h : fenceJson <:+: xs) : fence <:+: xs :=
  List.IsInfix.trans (List.IsPrefix.isInfix (by decide)) h

lemma pySplitAux_nil (sep : List Char) (fuel : Nat) (acc : List Char) :
    pySplitAux sep (fuel + 1) acc [] = [acc] := by
  simp only [pySplitAux]
  rw [if_neg]
  rintro ⟨hne, hpre⟩
  have h1 := (List.isPrefixOf_iff_prefix.mp hpre).length_le
  have h2 : 0 < sep.length := List.length_pos.mpr hne
  simp only [List.length_nil] at h1
  omega

lemma pySplitAux_no_occ (sep : List Char) :
    ∀ xs fuel acc, xs.length < fuel → ¬ sep <:+: xs →
      pySplitAux sep fuel acc xs = [acc ++ xs] := by
  intro xs
  induction xs with
  | nil =>
    intro fuel acc hf _
    obtain ⟨f, rfl⟩ : ∃ f, fuel = f + 1 := ⟨fuel - 1, by omega⟩
    rw [pySplitAux_nil, List.append_nil]
  | cons c rest ih =>
    intro fuel acc hf hocc
    obtain ⟨f, rfl⟩ : ∃ f, fuel = f + 1 := ⟨fuel - 1, by omega⟩
    simp only [pySplitAux]
    rw [if_neg]
    · rw [ih f (acc ++ [c]) (by simpa using hf)
        (fun h => hocc (List.infix_cons_iff.mpr (Or.inr h)))]
      simp
    · rintro ⟨_, hpre⟩
      exact hocc (List.isPrefixOf_iff_prefix.mp hpre).isInfix

lemma pySplit_no_occ (sep xs : List Char) (hocc : ¬ sep <:+: xs) : pySplit sep xs = [xs] := by
  rw [pySplit, pySplitAux_no_occ sep xs (xs.length + 1) [] (by omega) hocc, List.nil_append]

lemma pySplitAux_consume (sep : List Char) (hsep : sep ≠ []) (fuel : Nat) (acc r : List Char) :
    pySplitAux sep (fuel + 1) acc (sep ++ r) = acc :: pySplitAux sep fuel [] r := by
  simp only [pySplitAux]
  rw [if_pos ⟨hsep, List.isPrefixOf_iff_prefix.mpr (List.prefix_append sep r)⟩,
    List.drop_left]

lemma fence_not_prefix (a : List Char) (hne : a ≠ []) (hinf : ¬ fence <:+: a)
    (hlast : a.getLast? ≠ some '\x60') (x : List Char) : ¬ fence <+: (a ++ x) := by
  intro h
  rw [fence_eq] at h
  match a with
  | [c] =>
    rw [List.cons_append] at h
    rw [List.cons_prefix_cons] at h
    obtain ⟨rfl, -⟩ := h
    exact hlast rfl
  | [c, d] =>
    simp only [List.cons_append, List.nil_append, List.cons_prefix_cons] at h
    obtain ⟨rfl, rfl, -⟩ := h
    exact hlast rfl
  | c :: d :: e :: a' =>
    simp only [List.cons_append, List.cons_prefix_cons] at h
    obtain ⟨rfl, rfl, rfl, -⟩ := h
    exact hinf ⟨[], a', by rw [fence_eq]; rfl⟩

lemma pySplitAux_fence_skip :
    ∀ (a : List Char), ¬ fence <:+: a → a.getLast? ≠ some '\x60' →
    ∀ fuel acc r, pySplitAux fence (a.length + 1 + fuel) acc (a ++ fence ++ r) =
      (acc ++ a) :: pySplitAux fence fuel [] r := by
  intro a
  induction a with
  | nil =>
    intro _ _ fuel acc r
    simp only [List.length_nil, List.nil_append, List.append_nil]
    rw [show 0 + 1 + fuel = fuel + 1 from by omega,
      pySplitAux_consume fence (by decide) fuel acc r]
  | cons c a' ih =>
    intro hinf hlast fuel acc r
    have hlist : (c :: a') ++ fence ++ r = c :: (a' ++ fence ++ r) := by simp
    have hfuel : (c :: a').length + 1 + fuel = (a'.length + 1 + fuel) + 1 := by
      simp only [List.length_cons]
      omega
    rw [hlist, hfuel]
    simp only [pySplitAux]
    rw [if_neg]
    · have hinf' : ¬ fence <:+: a' :=
        fun h => hinf (List.infix_cons_iff.mpr (Or.inr h))
      have hlast' : a'.getLast? ≠ some '\x60' := by
        cases a' with
        | nil => simp
        | cons d t =>
          rw [← List.getLast?_cons_cons (a := c)]
          exact hlast
      rw [ih hinf' hlast' fuel (acc ++ [c]) r]
      simp
    · rintro ⟨-, hpre⟩
      refine fence_not_prefix (c :: a') (by simp) hinf hlast (fence ++ r) ?_
      rw [show (c :: a') ++ (fence ++ r) = c :: (a' ++ fence ++ r) from by simp]
      exact List.isPrefixOf_iff_prefix.mp hpre

lemma bt_mem_of_fence_occ {l : List Char} (h : fence <:+: l) : '\x60' ∈ l :=
  h.sublist.subset (by rw [fence_eq]; simp)

lemma fence_not_infix_append_right : ∀ (s q : List Char), ¬ fence <:+: s →
    (∀ c ∈ q, c ≠ '\x60') → ¬ fence <:+: (s ++ q) := by
  intro s
  induction s with
  | nil =>
    intro q _ hq h
    simp only [List.nil_append] at h
    exact hq _ (bt_mem_of_fence_occ h) rfl
  | cons c s' ih =>
    intro q hs hq h
    rw [List.cons_append, List.infix_cons_iff] at h
    rcases h with hpre | hinf
    · rw [fence_eq] at hpre
      obtain ⟨rfl, hpre2⟩ := List.cons_prefix_cons.mp hpre
      match s', hpre2 with
      | [], hpre2 =>
        exact hq _ (hpre2.sublist.subset (by simp)) rfl
      | [d], hpre2 =>
        simp only [List.cons_append, List.nil_append, List.cons_prefix_cons] at hpre2
        obtain ⟨rfl, hpre3⟩ := hpre2
        exact hq _ (hpre3.sublist.subset (by simp)) rfl
      | d :: e :: s'', hpre2 =>
        simp only [List.cons_append, List.cons_prefix_cons] at hpre2
        obtain ⟨rfl, rfl, -⟩ := hpre2
        exact hs ⟨[], s'', by rw [fence_eq]; rfl⟩
    · exact ih q (fun h2 => hs (List.infix_cons_iff.mpr (Or.inr h2))) hq hinf

lemma fence_not_infix_append_left : ∀ (p rest : List Char), (∀ c ∈ p, c ≠ '\x60') →
    ¬ fence <:+: rest → ¬ fence <:+: (p ++ rest) := by
  intro p
  induction p with
  | nil => intro rest _ hr; simpa using hr
  | cons c p' ih =>
    intro rest hp hr h
    rw [List.cons_append, List.infix_cons_iff] at h
    rcases h with hpre | hinf
    · refine hp c (by simp) ?_
      rw [fence_eq] at hpre
      exact (List.cons_prefix_cons.mp hpre).1.symm
    · exact ih rest (fun d hd => hp d (by simp [hd])) hr hinf

lemma fence_front_unique (b : List Char) (hinf : ¬ fence <:+: b)
    (hhead : b.head? ≠ some '\x60') :
    ∀ w u, fence ++ b = w ++ fence ++ u → w = [] := by
  intro w u heq
  match w, heq with
  | [], _ => rfl
  | [c], heq =>
    exfalso
    rw [fence_eq] at heq
    simp only [List.cons_append, List.nil_append] at heq
    injection heq with h1 heq; injection heq with h2 heq; injection heq with h3 hb
    rw [hb] at hhead
    exact hhead rfl
  | [c, d], heq =>
    exfalso
    rw [fence_eq] at heq
    simp only [List.cons_append, List.nil_append] at heq
    injection heq with h1 heq; injection heq with h2 heq; injection heq with h3 hb
    rw [hb] at hhead
    exact hhead rfl
  | c :: d :: e :: w', heq =>
    exfalso
    rw [fence_eq] at heq
    simp only [List.cons_append, List.nil_append] at heq
    injection heq with h1 heq; injection heq with h2 heq; injection heq with h3 hb
    refine hinf ⟨w', u, ?_⟩
    rw [fence_eq, hb]

lemma fence_trailing_unique (a : List Char) (hinf : ¬ fence <:+: a)
    (hlast : a.getLast? ≠ some '\x60') :
    ∀ u w, a ++ fence = u ++ fence ++ w → w = [] := by
  intro u w heq
  have hrevinf : ¬ fence <:+: a.reverse := by
    intro h
    have h2 := (@List.reverse_infix Char fence a.reverse).mpr h
    rw [List.reverse_reverse, show fence.reverse = fence from by decide] at h2
    exact hinf h2
  have hrevhead : a.reverse.head? ≠ some '\x60' := by
    rw [List.head?_reverse]
    exact hlast
  have hrev : fence ++ a.reverse = w.reverse ++ fence ++ u.reverse := by
    have h2 := congrArg List.reverse heq
    rw [List.reverse_append, List.reverse_append, List.reverse_append,
      show fence.reverse = fence from by decide] at h2
    rw [h2, List.append_assoc]
  have hnil := fence_front_unique a.reverse hrevinf hrevhead w.reverse u.reverse hrev
  rwa [List.reverse_eq_nil_iff] at hnil

lemma fence_occ_double (a : List Char) (hne : a ≠ []) (hinf : ¬ fence <:+: a)
    (hhead : a.head? ≠ some '\x60') (hlast : a.getLast? ≠ some '\x60') :
    ∀ u w, fence ++ a ++ fence = u ++ fence ++ w →
      (u = [] ∧ w = a ++ fence) ∨ (u = fence ++ a ∧ w = []) := by
  intro u w heq
  match u, heq with
  | [], heq =>
    left
    refine ⟨rfl, ?_⟩
    rw [List.nil_append, List.append_assoc] at heq
    exact (List.append_cancel_left heq).symm
  | [c], heq =>
    exfalso
    rw [fence_eq] at heq
    simp only [List.cons_append, List.nil_append, List.append_assoc] at heq
    injection heq with h1 heq; injection heq with h2 heq; injection heq with h3 hrest
    match a, hrest with
    | [], hrest => exact hne rfl
    | d :: a', hrest =>
      simp only [List.cons_append] at hrest
      injection hrest with h4 hrest
      refine hhead ?_
      rw [h4]
      rfl
  | [c, d], heq =>
    exfalso
    rw [fence_eq] at heq
    simp only [List.cons_append, List.nil_append, List.append_assoc] at heq
    injection heq with h1 heq; injection heq with h2 heq; injection heq with h3 hrest
    match a, hrest with
    | [], hrest => exact hne rfl
    | e :: a', hrest =>
      simp only [List.cons_append] at hrest
      injection hrest with h4 hrest
      refine hhead ?_
      rw [h4]
      rfl
  | c :: d :: e :: u', heq =>
    right
    rw [fence_eq] at heq
    simp only [List.cons_append, List.nil_append] at heq
    injection heq with h1 heq; injection heq with h2 heq; injection heq with h3 hrest
    rw [← fence_eq] at hrest
    have hrest2 : a ++ fence = u' ++ fence ++ w := by
      rw [hrest]
    have hw : w = [] := fence_trailing_unique a hinf hlast u' w hrest2
    subst hw
    rw [List.append_nil] at hrest2
    have hau : a = u' := List.append_cancel_right hrest2
    subst hau
    refine ⟨?_, rfl⟩
    rw [← h1, ← h2, ← h3, fence_eq]
    simp

lemma pyStrip_cons_ws (c : Char) (x : List Char) (hc : pyStripWs c = true) :
    pyStrip (c :: x) = pyStrip x := by
  unfold pyStrip
  rw [List.dropWhile_cons, if_pos hc]

lemma pyStrip_concat_ws (x : List Char) (c : Char) (hc : pyStripWs c = true) :
    pyStrip (x ++ [c]) = pyStrip x := by
  unfold pyStrip
  rw [List.dropWhile_append]
  by_cases hemp : (x.dropWhile pyStripWs).isEmpty
  · rw [if_pos hemp]
    rw [List.isEmpty_iff] at hemp
    rw [hemp]
    simp [List.dropWhile, hc]
  · rw [if_neg hemp]
    rw [List.reverse_append]
    simp only [List.reverse_cons, List.reverse_nil, List.nil_append, List.singleton_append]
    rw [List.dropWhile_cons, if_pos hc]

lemma pyStrip_brace (mid : List Char) :
    pyStrip ('\x7b' :: (mid ++ ['\x7d'])) = '\x7b' :: (mid ++ ['\x7d']) := by
  unfold pyStrip
  rw [List.dropWhile_cons, if_neg (by decide)]
  rw [show ('\x7b' :: (mid ++ ['\x7d'])).reverse = '\x7d' :: (mid.reverse ++ ['\x7b']) from by
    simp]
  rw [List.dropWhile_cons, if_neg (by decide)]
  simp

lemma pyStrip_wrap (mid : List Char) :
    pyStrip ('\n' :: (('\x7b' :: (mid ++ ['\x7d'])) ++ ['\n'])) =
      '\x7b' :: (mid ++ ['\x7d']) := by
  rw [pyStrip_cons_ws _ _ (by decide), pyStrip_concat_ws _ _ (by decide), pyStrip_brace]

lemma findIdx_parts (pred : Char → Bool) :
    ∀ (p : List Char), (∀ c ∈ p, pred c = false) →
    ∀ (a : Char) (rest : List Char) (i : Nat), pred a = true →
      List.findIdx? pred (p ++ a :: rest) i = some (i + p.length) := by
  intro p
  induction p with
  | nil =>
    intro _ a rest i ha
    rw [List.nil_append, List.findIdx?_cons, if_pos ha]
    simp
  | cons c p' ih =>
    intro hp a rest i ha
    rw [List.cons_append, List.findIdx?_cons, if_neg (by simp [hp c (by simp)])]
    rw [ih (fun d hd => hp d (by simp [hd])) a rest (i + 1) ha]
    simp only [List.length_cons]
    congr 1
    omega

lemma braceMatch_parts (p mid q : List Char)
    (hp : ∀ c ∈ p, c ≠ '\x7b' ∧ c ≠ '\x7d') (hq : ∀ c ∈ q, c ≠ '\x7b' ∧ c ≠ '\x7d') :
    braceMatch (p ++ ('\x7b' :: (mid ++ ['\x7d'])) ++ q) = some ('\x7b' :: (mid ++ ['\x7d'])) := by
  unfold braceMatch
  have hshape : p ++ ('\x7b' :: (mid ++ ['\x7d'])) ++ q =
      p ++ '\x7b' :: (mid ++ ['\x7d'] ++ q) := by simp
  have hopen : List.findIdx? (fun c => c = '\x7b') (p ++ ('\x7b' :: (mid ++ ['\x7d'])) ++ q) 0 =
      some p.length := by
    rw [hshape, findIdx_parts _ p (fun c hc => by simp [(hp c hc).1]) '\x7b' _ 0 (by simp)]
    simp
  have hrevshape : (p ++ ('\x7b' :: (mid ++ ['\x7d'])) ++ q).reverse =
      q.reverse ++ '\x7d' :: (mid.reverse ++ '\x7b' :: p.reverse) := by
    simp
  have hclose : List.findIdx? (fun c => c = '\x7d')
      (p ++ ('\x7b' :: (mid ++ ['\x7d'])) ++ q).reverse 0 = some q.length := by
    rw [hrevshape, findIdx_parts _ q.reverse
      (fun c hc => by simp [(hq c (List.mem_reverse.mp hc)).2]) '\x7d' _ 0 (by simp)]
    simp
  rw [hopen, hclose]
  dsimp only []
  have hlen : (p ++ ('\x7b' :: (mid ++ ['\x7d'])) ++ q).length =
      p.length + (mid.length + 2) + q.length := by
    simp
    omega
  rw [hlen]
  rw [if_pos (by omega)]
  have hdrop : ((p ++ ('\x7b' :: (mid ++ ['\x7d'])) ++ q).drop p.length) =
      ('\x7b' :: (mid ++ ['\x7d'])) ++ q := by
    rw [List.append_assoc]
    exact List.drop_left p _
  rw [hdrop]
  have htake : (p.length + (mid.length + 2) + q.length - 1 - q.length - p.length + 1) =
      ('\x7b' :: (mid ++ ['\x7d'])).length := by
    simp
    omega
  rw [htake, List.take_left]

lemma extract_raw (s : List Char) (hs : ¬ fence <:+: s) (v : Json)
    (hv : json_loads s = some v) : get_deepseek_analysis s = some v := by
  simp only [get_deepseek_analysis]
  rw [if_neg (fun h => hs (fence_infix_of_fenceJson h)), if_neg hs, hv]

lemma wrap_no_fence_occ (s : List Char) (hs : ¬ fence <:+: s) :
    ¬ fence <:+: ('\n' :: (s ++ ['\n'])) := by
  have h := fence_not_infix_append_left ['\n'] (s ++ ['\n'])
    (fun c hc => by simp at hc; rw [hc]; decide)
    (fence_not_infix_append_right s ['\n'] hs (fun c hc => by simp at hc; rw [hc]; decide))
  simpa using h

lemma wrap_getLast (s : List Char) : ('\n' :: (s ++ ['\n'])).getLast? = some '\n' := by
  rw [show '\n' :: (s ++ ['\n']) = ('\n' :: s) ++ ['\n'] from by simp]
  exact List.getLast?_concat _

lemma wrap_fence_no_fenceJson (s : List Char) (hs : ¬ fence <:+: s) :
    ¬ fenceJson <:+: (('\n' :: (s ++ ['\n'])) ++ fence) := by
  rintro ⟨u, w, hw⟩
  rw [fenceJson_eq] at hw
  have hw2 : ('\n' :: (s ++ ['\n'])) ++ fence = u ++ fence ++ (['j', 's', 'o', 'n'] ++ w) := by
    rw [← hw]
    simp
  have hnil := fence_trailing_unique ('\n' :: (s ++ ['\n'])) (wrap_no_fence_occ s hs)
    (by rw [wrap_getLast]; decide) u (['j', 's', 'o', 'n'] ++ w) hw2
  simp at hnil

lemma split_json_fence (s : List Char) (hs : ¬ fence <:+: s) :
    pySplit fenceJson (fenceJson ++ (('\n' :: (s ++ ['\n'])) ++ fence)) =
      [[], ('\n' :: (s ++ ['\n'])) ++ fence] := by
  rw [pySplit]
  rw [show (fenceJson ++ (('\n' :: (s ++ ['\n'])) ++ fence)).length + 1 =
      ((('\n' :: (s ++ ['\n'])) ++ fence).length + 7) + 1 from by
    simp [fenceJson_eq, fence_eq]
    try omega]
  rw [pySplitAux_consume fenceJson (by decide) _ [] _]
  rw [pySplitAux_no_occ fenceJson _ _ [] (by omega) (wrap_fence_no_fenceJson s hs)]
  rw [List.nil_append]

lemma split_wrap_fence (s : List Char) (hs : ¬ fence <:+: s) :
    pySplit fence (('\n' :: (s ++ ['\n'])) ++ fence) = ['\n' :: (s ++ ['\n']), []] := by
  rw [pySplit]
  rw [show (('\n' :: (s ++ ['\n'])) ++ fence).length + 1 =
      ('\n' :: (s ++ ['\n'])).length + 1 + 3 from by simp [fence_eq]; try omega]
  rw [show ('\n' :: (s ++ ['\n'])) ++ fence = ('\n' :: (s ++ ['\n'])) ++ fence ++ [] from by simp]
  rw [pySplitAux_fence_skip ('\n' :: (s ++ ['\n'])) (wrap_no_fence_occ s hs)
    (by rw [wrap_getLast]; decide) 3 [] []]
  rw [pySplitAux_nil fence 2 []]
  rw [List.nil_append]

lemma extract_json_fence (mid : List Char) (v : Json)
    (hs : ¬ fence <:+: ('\x7b' :: (mid ++ ['\x7d'])))
    (hv : json_loads ('\x7b' :: (mid ++ ['\x7d'])) = some v) :
    get_deepseek_analysis
      (fenceJson ++ ('\n' :: (('\x7b' :: (mid ++ ['\x7d'])) ++ ['\n'])) ++ fence) = some v := by
  simp only [get_deepseek_analysis]
  rw [if_pos ⟨[], ('\n' :: (('\x7b' :: (mid ++ ['\x7d'])) ++ ['\n'])) ++ fence, by simp⟩]
  rw [show fenceJson ++ ('\n' :: (('\x7b' :: (mid ++ ['\x7d'])) ++ ['\n'])) ++ fence =
      fenceJson ++ (('\n' :: (('\x7b' :: (mid ++ ['\x7d'])) ++ ['\n'])) ++ fence) from by simp]
  rw [split_json_fence _ hs]
  rw [show ([[], ('\n' :: (('\x7b' :: (mid ++ ['\x7d'])) ++ ['\n'])) ++ fence]).getD 1 [] =
      ('\n' :: (('\x7b' :: (mid ++ ['\x7d'])) ++ ['\n'])) ++ fence from rfl]
  rw [split_wrap_fence _ hs]
  rw [show (['\n' :: (('\x7b' :: (mid ++ ['\x7d'])) ++ ['\n']), []]).getD 0 [] =
      '\n' :: (('\x7b' :: (mid ++ ['\x7d'])) ++ ['\n']) from rfl]
  rw [pyStrip_wrap, hv]

lemma extract_generic_fence (mid : List Char) (v : Json)
    (hs : ¬ fence <:+: ('\x7b' :: (mid ++ ['\x7d'])))
    (hv : json_loads ('\x7b' :: (mid ++ ['\x7d'])) = some v) :
    get_deepseek_analysis
      (fence ++ ('\n' :: (('\x7b' :: (mid ++ ['\x7d'])) ++ ['\n'])) ++ fence) = some v := by
  have hwinf := wrap_no_fence_occ ('\x7b' :: (mid ++ ['\x7d'])) hs
  have hwhead : ('\n' :: (('\x7b' :: (mid ++ ['\x7d'])) ++ ['\n'])).head? ≠ some '\x60' := by
    rw [List.head?_cons]
    decide
  have hwlast : ('\n' :: (('\x7b' :: (mid ++ ['\x7d'])) ++ ['\n'])).getLast? ≠ some '\x60' := by
    rw [wrap_getLast]
    decide
  have hwne : ('\n' :: (('\x7b' :: (mid ++ ['\x7d'])) ++ ['\n'])) ≠ [] := by simp
  have hnoJson : ¬ fenceJson <:+:
      (fence ++ ('\n' :: (('\x7b' :: (mid ++ ['\x7d'])) ++ ['\n'])) ++ fence) := by
    rintro ⟨u, w, hw⟩
    rw [fenceJson_eq] at hw
    have hw2 : fence ++ ('\n' :: (('\x7b' :: (mid ++ ['\x7d'])) ++ ['\n'])) ++ fence =
        u ++ fence ++ (['j', 's', 'o', 'n'] ++ w) := by
      rw [← hw]
      simp
    rcases fence_occ_double _ hwne hwinf hwhead hwlast u (['j', 's', 'o', 'n'] ++ w) hw2 with
      ⟨-, h2⟩ | ⟨-, h2⟩
    · rw [show ('\n' :: (('\x7b' :: (mid ++ ['\x7d'])) ++ ['\n'])) ++ fence =
          '\n' :: ((('\x7b' :: (mid ++ ['\x7d'])) ++ ['\n']) ++ fence) from by simp] at h2
      injection h2 with h3
      exact absurd h3 (by decide)
    · simp at h2
  have hsplit1 : pySplit fence
      (fence ++ ('\n' :: (('\x7b' :: (mid ++ ['\x7d'])) ++ ['\n'])) ++ fence) =
      [[], '\n' :: (('\x7b' :: (mid ++ ['\x7d'])) ++ ['\n']), []] := by
    rw [pySplit]
    rw [show fence ++ ('\n' :: (('\x7b' :: (mid ++ ['\x7d'])) ++ ['\n'])) ++ fence =
        fence ++ (('\n' :: (('\x7b' :: (mid ++ ['\x7d'])) ++ ['\n'])) ++ fence) from by simp]
    rw [show (fence ++ (('\n' :: (('\x7b' :: (mid ++ ['\x7d'])) ++ ['\n'])) ++ fence)).length + 1 =
        ((('\n' :: (('\x7b' :: (mid ++ ['\x7d'])) ++ ['\n'])) ++ fence).length + 3) + 1 from by
      simp [fence_eq]
      try omega]
    rw [pySplitAux_consume fence (by decide) _ [] _]
    rw [show (('\n' :: (('\x7b' :: (mid ++ ['\x7d'])) ++ ['\n'])) ++ fence).length + 3 =
        ('\n' :: (('\x7b' :: (mid ++ ['\x7d'])) ++ ['\n'])).length + 1 + 5 from by
      simp [fence_eq]
      try omega]
    rw [show ('\n' :: (('\x7b' :: (mid ++ ['\x7d'])) ++ ['\n'])) ++ fence =
        ('\n' :: (('\x7b' :: (mid ++ ['\x7d'])) ++ ['\n'])) ++ fence ++ [] from by simp]
    rw [pySplitAux_fence_skip _ hwinf hwlast 5 [] []]
    rw [pySplitAux_nil fence 4 []]
    rw [List.nil_append]
  have hcond : fence <:+: fence ++ ('\n' :: (('\x7b' :: (mid ++ ['\x7d'])) ++ ['\n'])) ++ fence :=
    ⟨[], ('\n' :: (('\x7b' :: (mid ++ ['\x7d'])) ++ ['\n'])) ++ fence, by simp⟩
  simp only [get_deepseek_analysis]
  rw [if_neg hnoJson, if_pos hcond]
  rw [hsplit1]
  rw [show ([[], '\n' :: (('\x7b' :: (mid ++ ['\x7d'])) ++ ['\n']), []]).getD 1 [] =
      '\n' :: (('\x7b' :: (mid ++ ['\x7d'])) ++ ['\n']) from rfl]
  rw [pySplit_no_occ fence _ hwinf]
  rw [show ([('\n' :: (('\x7b' :: (mid ++ ['\x7d'])) ++ ['\n']))]).getD 0 [] =
      '\n' :: (('\x7b' :: (mid ++ ['\x7d'])) ++ ['\n']) from rfl]
  rw [pyStrip_wrap, hv]

lemma extract_prose (p mid q : List Char) (v : Json)
    (hp : ∀ c ∈ p, c ≠ '\x60' ∧ c ≠ '\x7b' ∧ c ≠ '\x7d')
    (hq : ∀ c ∈ q, c ≠ '\x60' ∧ c ≠ '\x7b' ∧ c ≠ '\x7d')
    (hs : ¬ fence <:+: ('\x7b' :: (mid ++ ['\x7d'])))
    (hv : json_loads ('\x7b' :: (mid ++ ['\x7d'])) = some v)
    (hfail : json_loads (p ++ ('\x7b' :: (mid ++ ['\x7d'])) ++ q) = none) :
    get_deepseek_analysis (p ++ ('\x7b' :: (mid ++ ['\x7d'])) ++ q) = some v := by
  have hnof : ¬ fence <:+: (p ++ ('\x7b' :: (mid ++ ['\x7d'])) ++ q) := by
    rw [List.append_assoc]
    exact fence_not_infix_append_left p _ (fun c hc => (hp c hc).1)
      (fence_not_infix_append_right _ q hs (fun c hc => (hq c hc).1))
  simp only [get_deepseek_analysis]
  rw [if_neg (fun h => hnof (fence_infix_of_fenceJson h)), if_neg hnof, hfail]
  rw [braceMatch_parts p mid q (fun c hc => ⟨(hp c hc).2.1, (hp c hc).2.2⟩)
    (fun c hc => ⟨(hq c hc).2.1, (hq c hc).2.2⟩)]
  show json_loads ('\x7b' :: (mid ++ ['\x7d'])) = some v
  exact hv

/-- Claim C6 (amended): for every JSON object body whose text contains no
code-fence marker (three consecutive backticks), the parser returns the
object obtained by parsing the body directly when the response text is
(a) the raw body, (b) the body inside a json-tagged fence, (c) the body
inside a generic fence, and (d) the body embedded as the only
brace-delimited substring in backtick- and brace-free prose for which the
whole text is not itself parseable. -/
theorem parser_fence_agreement (mid p q : List Char) (v : Json)
    (hs : ¬ fence <:+: ('\x7b' :: (mid ++ ['\x7d'])))
    (hv : json_loads ('\x7b' :: (mid ++ ['\x7d'])) = some v)
    (hp : ∀ c ∈ p, c ≠ '\x60' ∧ c ≠ '\x7b' ∧ c ≠ '\x7d')
    (hq : ∀ c ∈ q, c ≠ '\x60' ∧ c ≠ '\x7b' ∧ c ≠ '\x7d')
    (hfail : json_loads (p ++ ('\x7b' :: (mid ++ ['\x7d'])) ++ q) = none) :
    get_deepseek_analysis ('\x7b' :: (mid ++ ['\x7d'])) = some v ∧
    get_deepseek_analysis
      (fenceJson ++ ('\n' :: (('\x7b' :: (mid ++ ['\x7d'])) ++ ['\n'])) ++ fence) = some v ∧
    get_deepseek_analysis
      (fence ++ ('\n' :: (('\x7b' :: (mid ++ ['\x7d'])) ++ ['\n'])) ++ fence) = some v ∧
    get_deepseek_analysis (p ++ ('\x7b' :: (mid ++ ['\x7d'])) ++ q) = some v :=
  ⟨extract_raw _ hs v hv, extract_json_fence mid v hs hv, extract_generic_fence mid v hs hv,
   extract_prose p mid q v hp hq hs hv hfail⟩

/-- Counterexample to claim C6 as stated: for the JSON object body whose
only member is the string value "x```json 42 ```y", the raw response text
parses directly to that object, but the parser's fence-splitting extracts
the inner "42" and returns the number 42 instead — so form (a) does not
agree with parsing the body directly. -/
theorem parser_fence_agreement_counterexample :
    get_deepseek_analysis "\x7b\"a\": \"x```json 42 ```y\"\x7d".data = some (Json.num 42) ∧
    json_loads "\x7b\"a\": \"x```json 42 ```y\"\x7d".data =
      some (Json.obj [("a".data, Json.str "x```json 42 ```y".data)]) ∧
    Json.num 42 ≠ Json.obj [("a".data, Json.str "x```json 42 ```y".data)] :=
  ⟨rfl, rfl, by simp⟩

/-- Witness for C6 (amended) on the concrete body with one integer member,
prose "note ... end". -/
theorem parser_fence_agreement_witness :
    get_deepseek_analysis ('\x7b' :: ("\"k\": 7".data ++ ['\x7d'])) =
      some (Json.obj [("k".data, Json.num 7)]) ∧
    get_deepseek_analysis
      (fenceJson ++ ('\n' :: (('\x7b' :: ("\"k\": 7".data ++ ['\x7d'])) ++ ['\n'])) ++ fence) =
      some (Json.obj [("k".data, Json.num 7)]) ∧
    get_deepseek_analysis
      (fence ++ ('\n' :: (('\x7b' :: ("\"k\": 7".data ++ ['\x7d'])) ++ ['\n'])) ++ fence) =
      some (Json.obj [("k".data, Json.num 7)]) ∧
    get_deepseek_analysis
      ("note ".data ++ ('\x7b' :: ("\"k\": 7".data ++ ['\x7d'])) ++ " end".data) =
      some (Json.obj [("k".data, Json.num 7)]) :=
  parser_fence_agreement "\"k\": 7".data "note ".data " end".data
    (Json.obj [("k".data, Json.num 7)]) (by decide) rfl (by decide) (by decide) rfl

/-- Claim C1 (amended): the parser performs no validation of the signal
field — any successfully parsed JSON object is returned as the
recommendation even when the specification's signal validation
(`spec_signal_valid`) rejects it. -/
theorem parser_returns_unvalidated (mid : List Char) (v : Json)
    (hs : ¬ fence <:+: ('\x7b' :: (mid ++ ['\x7d'])))
    (hv : json_loads ('\x7b' :: (mid ++ ['\x7d'])) = some v)
    (hbad : spec_signal_valid v = false) :
    get_deepseek_analysis ('\x7b' :: (mid ++ ['\x7d'])) = some v :=
  extract_raw _ hs v hv

/-- Counterexample to claim C1 as stated: a response whose JSON object has
no signal field at all is returned as a recommendation rather than being
treated as a parse failure. -/
theorem parser_no_validation_counterexample :
    get_deepseek_analysis "\x7b\"foo\": 1\x7d".data =
      some (Json.obj [("foo".data, Json.num 1)]) ∧
    spec_signal_valid (Json.obj [("foo".data, Json.num 1)]) = false :=
  ⟨rfl, rfl⟩

/-- Witness for C1 (amended) at a concrete signal-free object. -/
theorem parser_returns_unvalidated_witness :
    get_deepseek_analysis ('\x7b' :: ("\"foo\": 2".data ++ ['\x7d'])) =
      some (Json.obj [("foo".data, Json.num 2)]) :=
  parser_returns_unvalidated "\"foo\": 2".data (Json.obj [("foo".data, Json.num 2)])
    (by decide) rfl rfl
